import Mathlib

/-!
Shallow embedding of the quick-search-lib core: the logging pipeline of
src/src/logging.rs (severity levels, severity filter, the 128-bit timestamp
wrapper, the log-message record, and the channel-backed logger operations)
and the typed configuration store of src/src/config.rs.

Modelling conventions:
- Rust u8/u64/u128 values are Nat; casts that can truncate carry an explicit
  `% 2 ^ w`.
- The crossbeam channel is a Lean list (the queue of pending messages)
  together with a `receiver_alive` flag; `send` fails exactly when the
  consuming side has been dropped, matching `RSender::send`.
- Wall-clock reads (`SystemTime::now().duration_since(UNIX_EPOCH)`) are a
  parameter `clock : Option Nat` (milliseconds; `none` models the Err case
  when the clock is before the Unix epoch).
- serde_json is an external crate, so serialization and parsing of a
  LogMessage are parameters (`ser`, `parse`) of the operations that use them;
  the fixed strings the source builds itself are embedded literally.
- The RHashMap behind Config is an association list with unique keys and
  unspecified order; `insert` replaces any existing binding.
-/

namespace QuickSearchLib

/-- abi_stable's RString; plain UTF-8 string contents. -/
abbrev RString := String

/-! ## logging.rs: severity levels and filters -/

/-- LogLevel from logging.rs, repr(u8) with explicit power-of-two
discriminants Trace=1, Debug=2, Info=4, Warn=8, Error=16. -/
inductive LogLevel where
  | Trace
  | Debug
  | Info
  | Warn
  | Error
deriving DecidableEq, Repr

/-- The repr(u8) discriminant of a LogLevel (the value of `level as u8`). -/
def LogLevel.toU8 : LogLevel → Nat
  | .Trace => 1
  | .Debug => 2
  | .Info => 4
  | .Warn => 8
  | .Error => 16

/-- LogLevelBitmask from logging.rs: a transparent u8 bitmask. -/
structure LogLevelBitmask where
  mask : Nat
deriving DecidableEq, Repr

/-- LogLevelOrCustom from logging.rs: a minimum-level threshold or an
arbitrary bitmask of enabled levels. -/
inductive LogLevelOrCustom where
  | LogLevel (l : LogLevel)
  | Custom (mask : LogLevelBitmask)
deriving DecidableEq, Repr

/-- LogLevelOrCustom::is_enabled: for a threshold the source computes
`*l as u8 >= level as u8` (self's stored level on the left, the candidate on
the right); for a mask it computes `mask.0 & level as u8 != 0`. -/
def LogLevelOrCustom.is_enabled : LogLevelOrCustom → QuickSearchLib.LogLevel → Bool
  | .LogLevel l, level => decide (l.toU8 ≥ level.toU8)
  | .Custom mask, level => decide (mask.mask &&& level.toU8 ≠ 0)

/-- LogLevelOrCustom::from_min_level. -/
def LogLevelOrCustom.from_min_level (level : QuickSearchLib.LogLevel) : LogLevelOrCustom :=
  .LogLevel level

/-- LogLevelOrCustom::from_levels: OR of the listed levels' discriminants,
accumulated left to right starting from 0. -/
def LogLevelOrCustom.from_levels (levels : List QuickSearchLib.LogLevel) : LogLevelOrCustom :=
  .Custom ⟨levels.foldl (fun mask level => mask ||| level.toU8) 0⟩

/-! ## logging.rs: the 128-bit timestamp wrapper -/

/-- U128Wrapper from logging.rs: a u128 split into two u64 halves for
binary-layout stability. Fields are Nat images of the u64 fields. -/
structure U128Wrapper where
  first : Nat
  second : Nat
deriving DecidableEq, Repr

/-- U128Wrapper::new: `first = (value >> 64) as u64`, `second = value as u64`.
The `as u64` casts truncate, hence the explicit `% 2 ^ 64`. -/
def U128Wrapper.new (value : Nat) : U128Wrapper :=
  ⟨(value >>> 64) % 2 ^ 64, value % 2 ^ 64⟩

/-- U128Wrapper::get: `(first as u128) << 64 | second as u128`. -/
def U128Wrapper.get (w : U128Wrapper) : Nat :=
  w.first <<< 64 ||| w.second

/-! ## logging.rs: log messages and the logger -/

/-- LogMessage from logging.rs: message text, severity, source label and the
128-bit millisecond timestamp. -/
structure LogMessage where
  message : RString
  level : LogLevel
  source : RString
  time : U128Wrapper
deriving DecidableEq, Repr

/-- The observable state of a Logger (equally of a ScopedLogger, which holds
the same filter/sender and differs only in its source label): the pending
queue of the crossbeam channel, the shared filter cell, the source label, the
stdout-mirroring flag, whether the receiving end is still alive, and the
lines written so far to standard output and to the error stream. -/
structure Logger where
  queue : List LogMessage
  log_level : LogLevelOrCustom
  source : RString
  stdout : Bool
  receiver_alive : Bool
  console_out : List RString
  err_out : List RString

/-- Logger::send (identical in ScopedLogger): when `stdout` is set, first
prints the serde_json-serialized message as one console line, then attempts
the channel send, which fails iff the receiver was dropped. Returns the new
state and whether the send succeeded. -/
def Logger.send (ser : LogMessage → RString) (st : Logger) (message : LogMessage) :
    Logger × Bool :=
  let st' :=
    if st.stdout then { st with console_out := st.console_out ++ [ser message] } else st
  if st.receiver_alive then
    ({ st' with queue := st'.queue ++ [message] }, true)
  else
    (st', false)

/-- Log::log (the trait default used by Logger and ScopedLogger): if the
shared filter enables the severity, build a LogMessage stamped with
`duration_since(UNIX_EPOCH).unwrap_or_default().as_millis()` and send it;
a failed send is reported on the error stream and otherwise swallowed.
`clock` is the wall-clock read: `some ms` for Ok, `none` for Err. -/
def Logger.log (ser : LogMessage → RString) (st : Logger) (message : RString)
    (level : LogLevel) (clock : Option Nat) : Logger :=
  if st.log_level.is_enabled level then
    let msg : LogMessage :=
      { message := message, level := level, source := st.source,
        time := U128Wrapper.new (clock.getD 0) }
    match Logger.send ser st msg with
    | (st', true) => st'
    | (st', false) => { st' with err_out := st'.err_out ++ ["Error sending log message"] }
  else st

/-- Log::error: log with the severity fixed to Error. -/
def Logger.error (ser : LogMessage → RString) (st : Logger) (message : RString)
    (clock : Option Nat) : Logger :=
  Logger.log ser st message .Error clock

/-- Log::import_deserialize: empty input returns immediately; input that
parses as a LogMessage is sent as-is (a failed send reported on the error
stream); input that fails to parse is reported through Log::error with the
offending text appended to a fixed prefix. `parse` is serde_json's
`from_str::<LogMessage>`. -/
def Logger.import_deserialize (ser : LogMessage → RString)
    (parse : RString → Option LogMessage) (st : Logger) (message : RString)
    (clock : Option Nat) : Logger :=
  if message = "" then st
  else
    match parse message with
    | some msg =>
      match Logger.send ser st msg with
      | (st', true) => st'
      | (st', false) => { st' with err_out := st'.err_out ++ ["Error sending log message"] }
    | none => Logger.error ser st ("Failed to deserialize log message: " ++ message) clock

/-- Logger::get: drain every queued message in FIFO order. -/
def Logger.get (st : Logger) : List LogMessage × Logger :=
  (st.queue, { st with queue := [] })

/-! ## config.rs: the typed value store -/

/-- EnumEntry from config.rs. -/
structure EnumEntry where
  value : Nat
  name : RString
deriving Repr

/-- EntryType from config.rs: the tagged configuration value. Numeric bounds
are carried but nothing in the store reads them. -/
inductive EntryType where
  | String (value : RString)
  | Bool (value : Bool)
  | Int (value : Int) (min : Option Int) (max : Option Int)
  | Float (value : Float) (min : Option Float) (max : Option Float)
  | Enum (value : Nat) (options : List EnumEntry)
  | None
deriving Repr

/-- Config from config.rs: an RHashMap from key to EntryType, modelled as an
association list with unique keys and unspecified order. -/
structure Config where
  entries : List (RString × EntryType)

/-- Config::new. -/
def Config.new : Config := ⟨[]⟩

/-- Config::get: the hash-map lookup. -/
def Config.get (c : Config) (key : RString) : Option EntryType :=
  c.entries.lookup key

/-- Config::get_or_default:
`self.entries.get(key).cloned().or_else(|| defaults.entries.get(key).cloned())`. -/
def Config.get_or_default (c : Config) (key : RString) (defaults : Config) :
    Option EntryType :=
  (c.get key).orElse fun _ => defaults.get key

/-- Config::insert: hash-map insert, replacing any existing binding for the
key (the stored position is irrelevant since iteration order is
unspecified). -/
def Config.insert (c : Config) (key : RString) (value : EntryType) : Config :=
  ⟨(key, value) :: c.entries.filter fun e => e.1 ≠ key⟩

/-- Config::remove. -/
def Config.remove (c : Config) (key : RString) : Config :=
  ⟨c.entries.filter fun e => e.1 ≠ key⟩

/-- Config::empty. -/
def Config.empty (c : Config) : Bool :=
  c.entries.isEmpty

/-- One insertion into the BTreeMap that `ordered_map` collects into: keeps
the list strictly sorted by key, replacing the value when the key is already
present. -/
def btInsert (e : RString × EntryType) :
    List (RString × EntryType) → List (RString × EntryType)
  | [] => [e]
  | x :: xs =>
    if e.1 < x.1 then e :: x :: xs
    else if x.1 < e.1 then x :: btInsert e xs
    else e :: xs

/-- ordered_map from config.rs: the serde serializer for Config's entries
collects them into a BTreeMap (iterating the hash map in whatever order it
yields) and emits the result, so the serialized sequence of entries is the
sorted collect of the in-memory entries. -/
def ordered_map (c : Config) : List (RString × EntryType) :=
  c.entries.foldl (fun acc e => btInsert e acc) []

/-- Strict key order between entries: lexicographic order on the keys. -/
def keyLt (a b : RString × EntryType) : Prop := a.1 < b.1

instance : DecidableRel keyLt := fun a b => inferInstanceAs (Decidable (a.1 < b.1))

instance : IsAntisymm (RString × EntryType) keyLt :=
  ⟨fun _ _ h1 h2 => absurd h1 (lt_asymm h2)⟩

/-! ## Concrete fixtures for evaluations -/

/-- A fixed stand-in for serde_json serialization of a message. -/
def serFix : LogMessage → RString := fun _ => "json"

/-- A stand-in parse for input serde_json rejects. -/
def parseNone : RString → Option LogMessage := fun _ => none

/-- A sample foreign message with its own source and time. -/
def sampleMsg : LogMessage :=
  { message := "hello", level := .Info, source := "plugin", time := U128Wrapper.new 5 }

/-- A stand-in parse for input serde_json accepts as sampleMsg. -/
def parseSample : RString → Option LogMessage := fun _ => some sampleMsg

/-- A live logger whose threshold stores Error (under the code's comparison
this enables every severity). -/
def baseLogger : Logger :=
  { queue := [], log_level := .LogLevel .Error, source := "raw", stdout := false,
    receiver_alive := true, console_out := [], err_out := [] }

/-- A live logger whose mask enables only Trace. -/
def traceOnlyLogger : Logger :=
  { baseLogger with log_level := LogLevelOrCustom.from_levels [.Trace] }

/-- A mirroring logger whose threshold stores Trace (under the code's
comparison this disables every severity except Trace). -/
def mirrorLogger : Logger :=
  { baseLogger with log_level := .LogLevel .Trace, stdout := true }

/-- A mirroring logger whose receiving side has been dropped. -/
def deadLogger : Logger :=
  { baseLogger with stdout := true, receiver_alive := false }

/-! ## Shared lemmas about the logger -/

/-- When the filter enables the severity and the receiver is alive, log
appends exactly one message, stamped with the current source and clock. -/
theorem log_queue_of_enabled (ser : LogMessage → RString) (st : Logger)
    (message : RString) (level : LogLevel) (clock : Option Nat)
    (hen : st.log_level.is_enabled level = true)
    (halive : st.receiver_alive = true) :
    (Logger.log ser st message level clock).queue =
      st.queue ++ [{ message := message, level := level, source := st.source,
                     time := U128Wrapper.new (clock.getD 0) }] := by
  cases hs : st.stdout <;>
    simp [Logger.log, Logger.send, hen, halive, hs]

/-! ## Claims -/

/-- Claim C1, evaluation of the code at the failing input: the Threshold arm
of is_enabled compares the stored threshold against the candidate as
`threshold >= candidate`, so a Warn threshold blocks Error while permitting
Trace, Debug, Info and Warn - the reverse of the claimed behavior and of the
intent stated by the from_min_level comment (the stored level is called "the
minimum level"). -/
theorem warn_threshold_eval :
    (LogLevelOrCustom.LogLevel .Warn).is_enabled .Error = false ∧
    (LogLevelOrCustom.LogLevel .Warn).is_enabled .Warn = true ∧
    (LogLevelOrCustom.LogLevel .Warn).is_enabled .Info = true ∧
    (LogLevelOrCustom.LogLevel .Warn).is_enabled .Debug = true ∧
    (LogLevelOrCustom.LogLevel .Warn).is_enabled .Trace = true := by
  decide

/-- Claim C2: get_or_default returns the primary store's value whenever the
primary contains the key, regardless of the fallback's content; otherwise it
returns exactly the fallback's lookup result (the fallback's value when
present, absent when not). The operation is pure in the embedding, mirroring
the source's shared borrows: neither store is mutated. -/
theorem get_or_default_spec (A B : Config) (k : RString) :
    (∀ v, A.get k = some v → A.get_or_default k B = some v) ∧
    (A.get k = none → A.get_or_default k B = B.get k) := by
  constructor
  · intro v hv
    simp [Config.get_or_default, hv, Option.orElse]
  · intro hv
    simp [Config.get_or_default, hv, Option.orElse]

theorem get_or_default_spec_w :
    ((Config.mk [("x", .Int 5 none none)]).get_or_default "x"
        (Config.mk [("x", .Int 1 none none), ("y", .Bool true)]) =
      some (.Int 5 none none)) ∧
    ((Config.mk [("x", .Int 5 none none)]).get_or_default "y"
        (Config.mk [("x", .Int 1 none none), ("y", .Bool true)]) =
      (Config.mk [("x", .Int 1 none none), ("y", .Bool true)]).get "y") :=
  ⟨(get_or_default_spec _ _ "x").1 _ rfl, (get_or_default_spec _ _ "y").2 rfl⟩

/-- Claim C4: when the shared filter disables the given severity, log is a
complete no-op: the whole logger state is unchanged, so the queue does not
grow and no console line is written even with mirroring on. -/
theorem log_disabled_is_noop (ser : LogMessage → RString) (st : Logger)
    (message : RString) (level : LogLevel) (clock : Option Nat)
    (h : st.log_level.is_enabled level = false) :
    Logger.log ser st message level clock = st := by
  simp [Logger.log, h]

theorem log_disabled_is_noop_w :
    Logger.log serFix mirrorLogger "dropped" .Info (some 7) = mirrorLogger :=
  log_disabled_is_noop serFix mirrorLogger "dropped" .Info (some 7) (by decide)

/-- Claim C7: the store performs no bound enforcement: insert stores Int 999
unmodified, and the merged lookup against a defaults store declaring
min 1 / max 100 for the same key still yields Int 999. -/
theorem no_bound_enforcement :
    ((Config.new.insert "limit" (.Int 999 none none)).get "limit" =
        some (.Int 999 none none)) ∧
    ((Config.new.insert "limit" (.Int 999 none none)).get_or_default "limit"
        (Config.new.insert "limit" (.Int 10 (some 1) (some 100))) =
      some (.Int 999 none none)) :=
  ⟨rfl, rfl⟩

/-- Claim C10: log never fails on account of the system clock: when the
wall-clock read errs (system time before the Unix epoch, modelled as clock =
none), the call still completes and the emitted message carries timestamp 0,
the default duration. -/
theorem log_clock_err_timestamp_zero (ser : LogMessage → RString) (st : Logger)
    (message : RString) (level : LogLevel)
    (hen : st.log_level.is_enabled level = true)
    (halive : st.receiver_alive = true) :
    (Logger.log ser st message level none).queue =
      st.queue ++ [{ message := message, level := level, source := st.source,
                     time := U128Wrapper.new 0 }] := by
  simpa using log_queue_of_enabled ser st message level none hen halive

theorem log_clock_err_timestamp_zero_w :
    (Logger.log serFix baseLogger "boot" .Warn none).queue =
      baseLogger.queue ++ [{ message := "boot", level := .Warn, source := baseLogger.source,
                             time := U128Wrapper.new 0 }] :=
  log_clock_err_timestamp_zero serFix baseLogger "boot" .Warn (by decide) rfl

/-- Recombining a shifted high half with a small low half is positional:
`a <<< 64 ||| b = 2 ^ 64 * a + b` when `b < 2 ^ 64`. -/
theorem shiftLeft_lor_eq (a b : Nat) (hb : b < 2 ^ 64) :
    a <<< 64 ||| b = 2 ^ 64 * a + b := by
  refine Nat.eq_of_testBit_eq fun j => ?_
  rw [Nat.testBit_lor, Nat.testBit_shiftLeft, Nat.testBit_mul_pow_two_add a hb j]
  by_cases hj : j < 64
  · simp [hj, Nat.not_le.mpr hj]
  · have hble : b < 2 ^ j :=
      lt_of_lt_of_le hb (Nat.pow_le_pow_right (by norm_num) (Nat.le_of_not_lt hj))
    simp [hj, Nat.le_of_not_lt hj, Nat.testBit_lt_two_pow hble]

/-- Claim C5: for every value in u128 range, splitting into the two 64-bit
wire halves and recombining is the identity, so a timestamp survives the
round trip with no precision loss. -/
theorem u128_roundtrip (v : Nat) (h : v < 2 ^ 128) : (U128Wrapper.new v).get = v := by
  have hdiv : v >>> 64 < 2 ^ 64 := by
    rw [Nat.shiftRight_eq_div_pow]
    have hm : v < 2 ^ 64 * 2 ^ 64 := by norm_num at h ⊢; omega
    exact Nat.div_lt_of_lt_mul hm
  have hmod : v % 2 ^ 64 < 2 ^ 64 := Nat.mod_lt _ (by norm_num)
  show ((v >>> 64) % 2 ^ 64) <<< 64 ||| v % 2 ^ 64 = v
  rw [Nat.mod_eq_of_lt hdiv, shiftLeft_lor_eq _ _ hmod, Nat.shiftRight_eq_div_pow]
  exact Nat.div_add_mod v (2 ^ 64)

theorem u128_roundtrip_w :
    (U128Wrapper.new (2 ^ 100 + 123456789)).get = 2 ^ 100 + 123456789 :=
  u128_roundtrip (2 ^ 100 + 123456789) (by norm_num)

/-- Claim C6: with the severity enabled and the receiving side dropped, log
still completes (it is a total function of the state): the queue does not
grow, the failure is reported as one line on the error stream rather than
propagated, and the console mirror line is written exactly when mirroring is
on, independent of the failed enqueue. -/
theorem log_receiver_dropped_graceful (ser : LogMessage → RString) (st : Logger)
    (message : RString) (level : LogLevel) (clock : Option Nat)
    (hen : st.log_level.is_enabled level = true)
    (hdead : st.receiver_alive = false) :
    (Logger.log ser st message level clock).queue = st.queue ∧
    (Logger.log ser st message level clock).err_out =
      st.err_out ++ ["Error sending log message"] ∧
    (Logger.log ser st message level clock).console_out =
      st.console_out ++
        (if st.stdout then
          [ser { message := message, level := level, source := st.source,
                 time := U128Wrapper.new (clock.getD 0) }]
        else []) := by
  cases hs : st.stdout <;>
    simp [Logger.log, Logger.send, hen, hdead, hs]

theorem log_receiver_dropped_graceful_w :
    (Logger.log serFix deadLogger "m" .Error (some 3)).queue = deadLogger.queue ∧
    (Logger.log serFix deadLogger "m" .Error (some 3)).err_out =
      deadLogger.err_out ++ ["Error sending log message"] ∧
    (Logger.log serFix deadLogger "m" .Error (some 3)).console_out =
      deadLogger.console_out ++
        (if deadLogger.stdout then
          [serFix { message := "m", level := .Error, source := deadLogger.source,
                    time := U128Wrapper.new ((some 3).getD 0) }]
        else []) :=
  log_receiver_dropped_graceful serFix deadLogger "m" .Error (some 3) (by decide) rfl

/-- Claim C3, counterexample: under a filter that enables only Trace, a
malformed nonempty input to import_deserialize enqueues nothing at all - the
Error-level report is routed through the ordinary filtered log path - so the
queue does not grow by exactly one event as claimed. -/
theorem import_deserialize_counterexample :
    (Logger.import_deserialize serFix parseNone traceOnlyLogger "bogus"
        (some 0)).queue.length ≠
      traceOnlyLogger.queue.length + 1 := by
  decide

/-- Claim C3, amended: import_deserialize proceeds by exactly this case
split: empty input leaves the logger unchanged; input that parses is
enqueued as-is, preserving its original source and time, provided the
consuming side is alive; input that fails to parse is reported through the
ordinary error-logging path, so exactly one new Error-level event whose
message embeds the original text is enqueued provided the shared filter
enables Error and the consuming side is alive. -/
theorem import_deserialize_cases :
    (∀ (ser : LogMessage → RString) (parse : RString → Option LogMessage)
        (st : Logger) (clock : Option Nat),
      Logger.import_deserialize ser parse st "" clock = st) ∧
    (∀ (ser : LogMessage → RString) (parse : RString → Option LogMessage)
        (st : Logger) (text : RString) (clock : Option Nat) (m : LogMessage),
      text ≠ "" → parse text = some m → st.receiver_alive = true →
      (Logger.import_deserialize ser parse st text clock).queue = st.queue ++ [m]) ∧
    (∀ (ser : LogMessage → RString) (parse : RString → Option LogMessage)
        (st : Logger) (text : RString) (clock : Option Nat),
      text ≠ "" → parse text = none →
      st.log_level.is_enabled .Error = true → st.receiver_alive = true →
      (Logger.import_deserialize ser parse st text clock).queue =
        st.queue ++ [{ message := "Failed to deserialize log message: " ++ text,
                       level := .Error, source := st.source,
                       time := U128Wrapper.new (clock.getD 0) }]) := by
  refine ⟨fun ser parse st clock => by simp [Logger.import_deserialize], ?_, ?_⟩
  · intro ser parse st text clock m hne hp halive
    cases hs : st.stdout <;>
      simp [Logger.import_deserialize, hne, hp, Logger.send, halive, hs]
  · intro ser parse st text clock hne hp herr halive
    simp only [Logger.import_deserialize, hne, if_neg hne, hp]
    exact log_queue_of_enabled ser st _ .Error clock herr halive

theorem import_deserialize_cases_w :
    (Logger.import_deserialize serFix parseNone baseLogger "" none = baseLogger) ∧
    ((Logger.import_deserialize serFix parseSample baseLogger "x" none).queue =
      baseLogger.queue ++ [sampleMsg]) ∧
    ((Logger.import_deserialize serFix parseNone baseLogger "x" (some 3)).queue =
      baseLogger.queue ++
        [{ message := "Failed to deserialize log message: " ++ "x",
           level := .Error, source := baseLogger.source,
           time := U128Wrapper.new ((some 3).getD 0) }]) :=
  ⟨import_deserialize_cases.1 serFix parseNone baseLogger none,
   import_deserialize_cases.2.1 serFix parseSample baseLogger "x" none sampleMsg
     (by decide) rfl rfl,
   import_deserialize_cases.2.2 serFix parseNone baseLogger "x" (some 3)
     (by decide) rfl (by decide) rfl⟩

/-- A bitwise OR is zero exactly when both sides are. -/
theorem lor_eq_zero_iff (a b : Nat) : a ||| b = 0 ↔ a = 0 ∧ b = 0 := by
  constructor
  · intro h
    constructor <;> refine Nat.eq_of_testBit_eq fun i => ?_
    · have hb := congrArg (fun n => n.testBit i) h
      simp [Nat.testBit_lor] at hb
      simp [hb.1]
    · have hb := congrArg (fun n => n.testBit i) h
      simp [Nat.testBit_lor] at hb
      simp [hb.2]
  · rintro ⟨rfl, rfl⟩
    rfl

/-- Two severity discriminants share a bit exactly when the severities are
equal (each is a distinct power of two). -/
theorem toU8_and_ne_zero_iff (l s : LogLevel) : l.toU8 &&& s.toU8 ≠ 0 ↔ l = s := by
  cases l <;> cases s <;> decide

/-- The accumulated OR of a list of severity bits meets `b` exactly when the
accumulator does or some listed severity's bit does. -/
theorem foldl_or_and_ne_zero (levels : List LogLevel) (b : Nat) :
    ∀ acc : Nat,
      (levels.foldl (fun mask level => mask ||| level.toU8) acc) &&& b ≠ 0 ↔
        acc &&& b ≠ 0 ∨ ∃ l ∈ levels, l.toU8 &&& b ≠ 0 := by
  induction levels with
  | nil => intro acc; simp
  | cons x xs ih =>
    intro acc
    simp only [List.foldl_cons]
    rw [ih]
    rw [Ne, Nat.and_distrib_right, lor_eq_zero_iff, not_and_or]
    simp only [List.mem_cons]
    constructor
    · rintro ((h | h) | ⟨l, hl, h⟩)
      · exact Or.inl h
      · exact Or.inr ⟨x, Or.inl rfl, h⟩
      · exact Or.inr ⟨l, Or.inr hl, h⟩
    · rintro (h | ⟨l, (rfl | hl), h⟩)
      · exact Or.inl (Or.inl h)
      · exact Or.inl (Or.inr h)
      · exact Or.inr ⟨l, hl, h⟩

/-- Claim C8: a Mask filter enables a severity exactly when the mask meets
that severity's bit, and the filter built by from_levels carries the OR of
the listed levels' bits, so under it a severity is enabled exactly when it is
among the listed levels. -/
theorem mask_filter_spec :
    (∀ (m : LogLevelBitmask) (s : LogLevel),
        (LogLevelOrCustom.Custom m).is_enabled s = true ↔ m.mask &&& s.toU8 ≠ 0) ∧
    (∀ (levels : List LogLevel) (s : LogLevel),
        (LogLevelOrCustom.from_levels levels).is_enabled s = true ↔ s ∈ levels) := by
  constructor
  · intro m s
    simp [LogLevelOrCustom.is_enabled]
  · intro levels s
    simp only [LogLevelOrCustom.from_levels, LogLevelOrCustom.is_enabled,
      decide_eq_true_eq]
    rw [foldl_or_and_ne_zero levels s.toU8 0]
    simp only [Nat.zero_and, ne_eq, not_true_eq_false, false_or]
    constructor
    · rintro ⟨l, hl, h⟩
      rcases (toU8_and_ne_zero_iff l s).mp h with rfl
      exact hl
    · intro hs
      exact ⟨s, hs, (toU8_and_ne_zero_iff s s).mpr rfl⟩

/-- Membership after a BTreeMap insertion: the element is the inserted entry
or one of the old ones. -/
theorem mem_btInsert {y e : RString × EntryType} :
    ∀ {l : List (RString × EntryType)}, y ∈ btInsert e l → y = e ∨ y ∈ l := by
  intro l
  induction l with
  | nil =>
    intro h
    simpa [btInsert] using h
  | cons x xs ih =>
    intro h
    by_cases h1 : e.1 < x.1
    · simp only [btInsert, if_pos h1, List.mem_cons] at h
      rcases h with h | h | h
      · exact Or.inl h
      · exact Or.inr (List.mem_cons.mpr (Or.inl h))
      · exact Or.inr (List.mem_cons.mpr (Or.inr h))
    · by_cases h2 : x.1 < e.1
      · simp only [btInsert, if_neg h1, if_pos h2, List.mem_cons] at h
        rcases h with h | h
        · exact Or.inr (List.mem_cons.mpr (Or.inl h))
        · rcases ih h with h | h
          · exact Or.inl h
          · exact Or.inr (List.mem_cons.mpr (Or.inr h))
      · simp only [btInsert, if_neg h1, if_neg h2, List.mem_cons] at h
        rcases h with h | h
        · exact Or.inl h
        · exact Or.inr (List.mem_cons.mpr (Or.inr h))

/-- BTreeMap insertion preserves strict sortedness by key. -/
theorem btInsert_sorted (e : RString × EntryType) :
    ∀ {l : List (RString × EntryType)}, l.Sorted keyLt → (btInsert e l).Sorted keyLt := by
  intro l
  induction l with
  | nil =>
    intro _
    simp [btInsert]
  | cons x xs ih =>
    intro hs
    rw [List.sorted_cons] at hs
    obtain ⟨hx, hxs⟩ := hs
    by_cases h1 : e.1 < x.1
    · simp only [btInsert, if_pos h1]
      rw [List.sorted_cons]
      refine ⟨fun y hy => ?_, List.sorted_cons.mpr ⟨hx, hxs⟩⟩
      rcases List.mem_cons.mp hy with rfl | hy
      · exact h1
      · exact lt_trans h1 (hx y hy)
    · by_cases h2 : x.1 < e.1
      · simp only [btInsert, if_neg h1, if_pos h2]
        rw [List.sorted_cons]
        refine ⟨fun y hy => ?_, ih hxs⟩
        rcases mem_btInsert hy with rfl | hy
        · exact h2
        · exact hx y hy
      · have heq : e.1 = x.1 := le_antisymm (le_of_not_lt h2) (le_of_not_lt h1)
        simp only [btInsert, if_neg h1, if_neg h2]
        rw [List.sorted_cons]
        refine ⟨fun y hy => ?_, hxs⟩
        show e.1 < y.1
        rw [heq]
        exact hx y hy

/-- When the inserted key is fresh, BTreeMap insertion is, up to order,
exactly a cons. -/
theorem btInsert_perm (e : RString × EntryType) :
    ∀ {l : List (RString × EntryType)}, e.1 ∉ l.map Prod.fst →
      (btInsert e l).Perm (e :: l) := by
  intro l
  induction l with
  | nil =>
    intro _
    simp [btInsert]
  | cons x xs ih =>
    intro hni
    simp only [List.map_cons, List.mem_cons, not_or] at hni
    obtain ⟨hnx, hnxs⟩ := hni
    by_cases h1 : e.1 < x.1
    · simp [btInsert, h1]
    · by_cases h2 : x.1 < e.1
      · simp only [btInsert, if_neg h1, if_pos h2]
        exact ((ih hnxs).cons x).trans (List.Perm.swap e x xs)
      · exact absurd (le_antisymm (le_of_not_lt h2) (le_of_not_lt h1)) hnx

/-- Collecting into a BTreeMap from a sorted accumulator stays sorted. -/
theorem foldl_btInsert_sorted (l : List (RString × EntryType)) :
    ∀ acc, acc.Sorted keyLt →
      (l.foldl (fun acc e => btInsert e acc) acc).Sorted keyLt := by
  induction l with
  | nil => intro acc h; exact h
  | cons x xs ih =>
    intro acc h
    rw [List.foldl_cons]
    exact ih (btInsert x acc) (btInsert_sorted x h)

/-- Collecting into a BTreeMap with globally distinct keys keeps exactly the
collected entries, up to order. -/
theorem foldl_btInsert_perm (l : List (RString × EntryType)) :
    ∀ acc, ((l.map Prod.fst) ++ (acc.map Prod.fst)).Nodup →
      (l.foldl (fun acc e => btInsert e acc) acc).Perm (l ++ acc) := by
  induction l with
  | nil => intro acc _; simp
  | cons x xs ih =>
    intro acc hnd
    simp only [List.map_cons, List.cons_append, List.nodup_cons, List.mem_append] at hnd
    obtain ⟨hxmem, hrest⟩ := hnd
    have hx_acc : x.1 ∉ acc.map Prod.fst := fun h => hxmem (Or.inr h)
    have hperm_ins : (btInsert x acc).Perm (x :: acc) := btInsert_perm x hx_acc
    have hkeys : ((btInsert x acc).map Prod.fst).Perm (x.1 :: acc.map Prod.fst) := by
      simpa using hperm_ins.map Prod.fst
    have hnodup_cons : (x.1 :: (xs.map Prod.fst ++ acc.map Prod.fst)).Nodup :=
      List.nodup_cons.mpr ⟨fun h => hxmem (List.mem_append.mp h), hrest⟩
    have hnd' : (xs.map Prod.fst ++ (btInsert x acc).map Prod.fst).Nodup := by
      have hp : (xs.map Prod.fst ++ (btInsert x acc).map Prod.fst).Perm
          (x.1 :: (xs.map Prod.fst ++ acc.map Prod.fst)) :=
        (List.Perm.append_left _ hkeys).trans List.perm_middle
      exact hp.symm.nodup hnodup_cons
    rw [List.foldl_cons, List.cons_append]
    exact (ih (btInsert x acc) hnd').trans
      ((List.Perm.append_left xs hperm_ins).trans List.perm_middle)

/-- Claim C9: the serialized entry sequence is strictly sorted by key; with
unique keys it consists of exactly the store's entries; and it is invariant
under any permutation of the unspecified in-memory order, so the persisted
form is deterministic. -/
theorem ordered_map_spec :
    (∀ c : Config, (ordered_map c).Sorted keyLt) ∧
    (∀ c : Config, (c.entries.map Prod.fst).Nodup → (ordered_map c).Perm c.entries) ∧
    (∀ c₁ c₂ : Config, (c₁.entries.map Prod.fst).Nodup → c₁.entries.Perm c₂.entries →
        ordered_map c₁ = ordered_map c₂) := by
  have hsorted : ∀ c : Config, (ordered_map c).Sorted keyLt := fun c =>
    foldl_btInsert_sorted c.entries [] List.sorted_nil
  have hperm : ∀ c : Config,
      (c.entries.map Prod.fst).Nodup → (ordered_map c).Perm c.entries := by
    intro c h
    have hane := foldl_btInsert_perm c.entries [] (by simpa using h)
    simpa [ordered_map] using hane
  refine ⟨hsorted, hperm, ?_⟩
  intro c₁ c₂ h1 hp
  have h2 : (c₂.entries.map Prod.fst).Nodup := (hp.map Prod.fst).nodup h1
  exact List.eq_of_perm_of_sorted
    (((hperm c₁ h1).trans hp).trans (hperm c₂ h2).symm) (hsorted c₁) (hsorted c₂)

theorem ordered_map_spec_w :
    ordered_map (Config.mk [("b", .Bool true), ("a", .String "v")]) =
      ordered_map (Config.mk [("a", .String "v"), ("b", .Bool true)]) :=
  ordered_map_spec.2.2 (Config.mk [("b", .Bool true), ("a", .String "v")])
    (Config.mk [("a", .String "v"), ("b", .Bool true)])
    (by decide) (List.Perm.swap _ _ _)

end QuickSearchLib
